import Mathlib

/-!
Verification of the descriptor-resolution core of magical-bitcoin-wallet
(src/descriptor/mod.rs), shallowly embedded in Lean 4.

External collaborators (the miniscript grammar and script engine, the
checksum algorithm, the secp256k1/BIP32 context) are modelled abstractly,
following the interfaces the specification gives for them: descriptors carry
their key list in structural traversal order plus abstract script functions,
the checksum and parser are parameters, and BIP32 derivation of an extended
public key is an abstract function field.
-/

namespace MBW

/-- Bitcoin network tag (bitcoin::Network). -/
inductive Network where
  | Bitcoin
  | Testnet
  | Signet
  | Regtest
deriving DecidableEq

/-- A single step of a BIP32 derivation path (bitcoin::util::bip32::ChildNumber). -/
inductive ChildNumber where
  | Normal (index : Nat)
  | Hardened (index : Nat)
deriving DecidableEq

/-- ChildNumber::is_hardened. -/
def ChildNumber.is_hardened : ChildNumber → Bool
  | ChildNumber.Normal _ => false
  | ChildNumber.Hardened _ => true

/-- The numeric index a child number carries, whichever kind it is. -/
def ChildNumber.num : ChildNumber → Nat
  | ChildNumber.Normal i => i
  | ChildNumber.Hardened i => i

/-- bitcoin::util::bip32::DerivationPath, as its list of steps. -/
abbrev DerivationPath := List ChildNumber

/-- A 4-byte key fingerprint, abstracted to a number. -/
abbrev Fingerprint := Nat

/-- A Bitcoin script, abstracted to an opaque token: the script-compilation
engine is an external collaborator, only equality of its outputs is used. -/
abbrev Script := Nat

/-- A concrete public key, abstracted to an identity token. -/
abbrev PubKey := Nat

/-- miniscript::descriptor::Wildcard. -/
inductive Wildcard where
  | None
  | Unhardened
  | Hardened
deriving DecidableEq

/-- An extended public key (bitcoin::util::bip32::ExtendedPubKey): its network
tag, its own fingerprint, and BIP32 public child derivation as an abstract
function from a relative path to the derived concrete public key. -/
structure ExtendedPubKey where
  network : Network
  fingerprint : Fingerprint
  derive_pub : DerivationPath → PubKey

/-- miniscript::descriptor::DescriptorXKey over an ExtendedPubKey. -/
structure DescriptorXKey where
  xkey : ExtendedPubKey
  origin : Option (Fingerprint × DerivationPath)
  derivation_path : DerivationPath
  wildcard : Wildcard

/-- miniscript::descriptor::DescriptorPublicKey: a fixed single key or an
extended key. -/
inductive DescriptorPublicKey where
  | Single (key : PubKey)
  | XPub (xkey : DescriptorXKey)

/-- miniscript::descriptor::DescriptorType (the variants matched on in
src/descriptor/mod.rs). -/
inductive DescriptorType where
  | Bare
  | Sh
  | Pkh
  | Wpkh
  | ShWpkh
  | Wsh
  | ShWsh
  | ShSortedMulti
  | ShWshSortedMulti
  | WshSortedMulti
deriving DecidableEq

/-- An output descriptor (miniscript::Descriptor<DescriptorPublicKey>),
modelled through the interface this module uses of it: the keys it contains
in structural traversal order (the order for_each_key visits them), its
descriptor type, and the scripts of its derivation at each index, abstract
because script compilation is the external miniscript engine
(script_pubkey_at i and explicit_script_at i are the script_pubkey and
explicit_script of the descriptor derived at index i). -/
structure Descriptor where
  keys : List DescriptorPublicKey
  dtype : DescriptorType
  script_pubkey_at : Nat → Script
  explicit_script_at : Nat → Script

/-- miniscript::descriptor::KeyMap, opaque here: it is only carried through. -/
abbrev KeyMap := List (PubKey × Nat)

/-- crate::keys::KeyError (the variants this module produces or wraps). -/
inductive KeyError where
  | InvalidNetwork
  | Other (code : Nat)
deriving DecidableEq

/-- descriptor::error::Error (the variants this module produces): checksum
mismatch, the hardened-xpub guard, wrapped key errors, and wrapped miniscript
parse errors (abstracted to a code). -/
inductive DescriptorError where
  | InvalidDescriptorChecksum
  | HardenedDerivationXpub
  | Key (e : KeyError)
  | Miniscript (code : Nat)
deriving DecidableEq

/-- bitcoin::TxOut: only its script_pubkey is read here. -/
structure TxOut where
  value : Nat
  script_pubkey : Script

/-- HDKeyPaths = BTreeMap<PublicKey, KeySource>: the map's entries in key
order, each a concrete public key with its (root fingerprint, full path). -/
abbrev HDKeyPaths := List (PubKey × Fingerprint × DerivationPath)

/-- psbt::Input, restricted to the fields this module reads. -/
structure PsbtInput where
  bip32_derivation : HDKeyPaths
  redeem_script : Option Script
  witness_script : Option Script

/-- XKeyUtils::root_fingerprint: the origin's fingerprint when an origin is
recorded, otherwise the extended key's own fingerprint. -/
def DescriptorXKey.root_fingerprint (x : DescriptorXKey) : Fingerprint :=
  match x.origin with
  | some (f, _) => f
  | none => x.xkey.fingerprint

/-- The origin's derivation path, or empty when no origin is recorded. -/
def DescriptorXKey.origin_path (x : DescriptorXKey) : DerivationPath :=
  match x.origin with
  | some (_, p) => p
  | none => []

/-- XKeyUtils::full_path: origin path ++ base derivation path, with the
caller-supplied tail appended further when the key carries a wildcard. -/
def DescriptorXKey.full_path (x : DescriptorXKey) (tail : List ChildNumber) :
    DerivationPath :=
  let base : DerivationPath :=
    match x.origin with
    | some (_, p) => p ++ x.derivation_path
    | none => x.derivation_path
  if x.wildcard ≠ Wildcard.None then base ++ tail else base

/-- Modelled from the spec: DescriptorXKey::matches lives in the external
miniscript crate; per 4.6 step 3 it tests whether the key's own
(fingerprint, origin path ++ base derivation path) is a prefix of the
candidate, and on success returns the matched prefix. -/
def DescriptorXKey.matches (x : DescriptorXKey) (f : Fingerprint)
    (path : DerivationPath) : Option DerivationPath :=
  let compare_path : DerivationPath :=
    match x.origin with
    | some (_, p) => p ++ x.derivation_path
    | none => x.derivation_path
  if x.root_fingerprint == f && compare_path.isPrefixOf path then some compare_path
  else none

/-- Modelled from the spec: miniscript's key-traversal/translation primitive
(4.2): traverse every key reachable in the descriptor exactly once, left to
right, through a fallible per-key function; the first error wins. -/
def translate_list (f : DescriptorPublicKey → Except DescriptorError DescriptorPublicKey) :
    List DescriptorPublicKey → Except DescriptorError (List DescriptorPublicKey)
  | [] => Except.ok []
  | k :: rest =>
    match f k with
    | Except.error e => Except.error e
    | Except.ok k' =>
      match translate_list f rest with
      | Except.error e => Except.error e
      | Except.ok ks => Except.ok (k' :: ks)

/-- Descriptor::translate_pk (external miniscript primitive, modelled from
the spec's 4.2 contract): rebuild the descriptor with every key passed
through the per-key function. -/
def Descriptor.translate_pk (d : Descriptor)
    (f : DescriptorPublicKey → Except DescriptorError DescriptorPublicKey) :
    Except DescriptorError Descriptor :=
  match translate_list f d.keys with
  | Except.error e => Except.error e
  | Except.ok ks => Except.ok { d with keys := ks }

/-- The per-key strict network check of IntoWalletDescriptor for
(ExtendedDescriptor, KeyMap) (check_key): the key's declared valid-network
set is computed by crate::keys (extract), here an abstract function vn; a
key whose set does not contain the target network fails with
Key(InvalidNetwork), a valid key is returned unchanged. -/
def check_key (vn : DescriptorPublicKey → List Network) (network : Network)
    (pk : DescriptorPublicKey) : Except DescriptorError DescriptorPublicKey :=
  if network ∈ vn pk then Except.ok pk
  else Except.error (DescriptorError.Key KeyError.InvalidNetwork)

/-- IntoWalletDescriptor for (ExtendedDescriptor, KeyMap): run check_key over
every key and return the translated descriptor with the key map unchanged. -/
def pair_into_wallet_descriptor (vn : DescriptorPublicKey → List Network)
    (d : Descriptor) (km : KeyMap) (network : Network) :
    Except DescriptorError (Descriptor × KeyMap) :=
  match d.translate_pk (check_key vn network) with
  | Except.error e => Except.error e
  | Except.ok translated => Except.ok (translated, km)

/-- The network rewrite the template fixup applies to an extended key:
reset the embedded network tag of the xpub to the target network. -/
def DescriptorPublicKey.fixup_network (pk : DescriptorPublicKey)
    (network : Network) : DescriptorPublicKey :=
  match pk with
  | DescriptorPublicKey.XPub x =>
      DescriptorPublicKey.XPub { x with xkey := { x.xkey with network := network } }
  | other => other

/-- The per-key fixup of IntoWalletDescriptor for DescriptorTemplateOut
(fix_key): when the template's declared valid-network set contains the
target network, rewrite each extended key's network tag to it; otherwise
fail with Key(InvalidNetwork). -/
def fix_key (valid_networks : List Network) (network : Network)
    (pk : DescriptorPublicKey) : Except DescriptorError DescriptorPublicKey :=
  if network ∈ valid_networks then Except.ok (pk.fixup_network network)
  else Except.error (DescriptorError.Key KeyError.InvalidNetwork)

/-- IntoWalletDescriptor for DescriptorTemplateOut: run fix_key over every
key and return the translated descriptor with the key map unchanged. -/
def template_into_wallet_descriptor (d : Descriptor) (km : KeyMap)
    (valid_networks : List Network) (network : Network) :
    Except DescriptorError (Descriptor × KeyMap) :=
  match d.translate_pk (fix_key valid_networks network) with
  | Except.error e => Except.error e
  | Except.ok translated => Except.ok (translated, km)

/-- The checksum gate of IntoWalletDescriptor for &str: split at the first
'#'; when a checksum suffix is present, recompute the checksum of the body
(get_checksum, the external pure checksum function, a parameter here) and
compare, failing with InvalidDescriptorChecksum on any mismatch or checksum
error; the surviving body (the part before '#') is returned. -/
def checksum_gate (get_checksum : List Char → Except Unit (List Char))
    (s : List Char) : Except DescriptorError (List Char) :=
  if s.contains '#' then
    if (match get_checksum (s.takeWhile fun c => c != '#') with
        | Except.ok computed => computed == (s.dropWhile fun c => c != '#').tail
        | Except.error _ => false) then
      Except.ok (s.takeWhile fun c => c != '#')
    else
      Except.error DescriptorError.InvalidDescriptorChecksum
  else
    Except.ok s

/-- IntoWalletDescriptor for &str: pass the string through the checksum
gate, hand the surviving body to the grammar parser (a parameter), and
normalize the parsed pair. -/
def str_into_wallet_descriptor
    (get_checksum : List Char → Except Unit (List Char))
    (parse : List Char → Except Nat (Descriptor × KeyMap))
    (vn : DescriptorPublicKey → List Network)
    (s : List Char) (network : Network) :
    Except DescriptorError (Descriptor × KeyMap) :=
  match checksum_gate get_checksum s with
  | Except.error e => Except.error e
  | Except.ok descriptor =>
    match parse descriptor with
    | Except.error e => Except.error (DescriptorError.Miniscript e)
    | Except.ok (d, km) => pair_into_wallet_descriptor vn d km network

/-- The source variants IntoWalletDescriptor is implemented for: a raw
string, a bare descriptor, a (descriptor, keymap) pair, and a template
output with its declared valid-network set. -/
inductive DescriptorSource where
  | Str (s : List Char)
  | Desc (d : Descriptor)
  | Pair (d : Descriptor) (km : KeyMap)
  | Template (d : Descriptor) (km : KeyMap) (valid_networks : List Network)

/-- IntoWalletDescriptor dispatched over the source variants (a bare
descriptor is normalized as the pair with the empty key map). -/
def into_wallet_descriptor
    (get_checksum : List Char → Except Unit (List Char))
    (parse : List Char → Except Nat (Descriptor × KeyMap))
    (vn : DescriptorPublicKey → List Network) :
    DescriptorSource → Network → Except DescriptorError (Descriptor × KeyMap)
  | DescriptorSource.Str s, network =>
      str_into_wallet_descriptor get_checksum parse vn s network
  | DescriptorSource.Desc d, network =>
      pair_into_wallet_descriptor vn d [] network
  | DescriptorSource.Pair d km, network =>
      pair_into_wallet_descriptor vn d km network
  | DescriptorSource.Template d km valid_networks, network =>
      template_into_wallet_descriptor d km valid_networks network

/-- The for_any_key scan of into_wallet_descriptor_checked: some key is an
extended key whose wildcard is hardened or whose derivation path has a
hardened step. -/
def descriptor_contains_hardened_steps (d : Descriptor) : Bool :=
  d.keys.any fun k =>
    match k with
    | DescriptorPublicKey.XPub x =>
        x.wildcard == Wildcard.Hardened
          || x.derivation_path.any ChildNumber.is_hardened
    | _ => false

/-- into_wallet_descriptor_checked: normalize, then reject the result with
HardenedDerivationXpub when the hardened scan fires, otherwise return the
normalized pair unchanged. -/
def into_wallet_descriptor_checked
    (get_checksum : List Char → Except Unit (List Char))
    (parse : List Char → Except Nat (Descriptor × KeyMap))
    (vn : DescriptorPublicKey → List Network)
    (src : DescriptorSource) (network : Network) :
    Except DescriptorError (Descriptor × KeyMap) :=
  match into_wallet_descriptor get_checksum parse vn src network with
  | Except.error e => Except.error e
  | Except.ok (descriptor, keymap) =>
    if descriptor_contains_hardened_steps descriptor then
      Except.error DescriptorError.HardenedDerivationXpub
    else
      Except.ok (descriptor, keymap)

/-- DescriptorPublicKey::derive (external miniscript, modelled from the
spec's Derived Descriptor contract): pin a wildcard key to the concrete
index by appending the corresponding child number to its derivation path
and clearing the wildcard; single keys and non-wildcard extended keys are
unchanged. -/
def DescriptorPublicKey.derive (k : DescriptorPublicKey) (index : Nat) :
    DescriptorPublicKey :=
  match k with
  | DescriptorPublicKey.Single p => DescriptorPublicKey.Single p
  | DescriptorPublicKey.XPub x =>
    let dp : DerivationPath :=
      match x.wildcard with
      | Wildcard.None => x.derivation_path
      | Wildcard.Unhardened => x.derivation_path ++ [ChildNumber.Normal index]
      | Wildcard.Hardened => x.derivation_path ++ [ChildNumber.Hardened index]
    DescriptorPublicKey.XPub
      { x with derivation_path := dp, wildcard := Wildcard.None }

/-- A derived descriptor: the source descriptor with every wildcard key
pinned to one concrete index. -/
structure DerivedDescriptor where
  base : Descriptor
  index : Nat

/-- AsDerived::as_derived (crate::descriptor::derived, modelled from the
spec: produce the Derived Descriptor of a descriptor at a chosen index). -/
def Descriptor.as_derived (d : Descriptor) (index : Nat) : DerivedDescriptor :=
  { base := d, index := index }

/-- AsDerived::as_derived_fixed (modelled from the spec: the single fixed
instantiation of a wildcard-free descriptor; the pinned index is
irrelevant for such a descriptor). -/
def Descriptor.as_derived_fixed (d : Descriptor) : DerivedDescriptor :=
  d.as_derived 0

/-- The keys of a derived descriptor: every key pinned at the index. -/
def DerivedDescriptor.keys (dd : DerivedDescriptor) : List DescriptorPublicKey :=
  dd.base.keys.map (fun k => k.derive dd.index)

/-- script_pubkey() of a derived descriptor. -/
def DerivedDescriptor.script_pubkey (dd : DerivedDescriptor) : Script :=
  dd.base.script_pubkey_at dd.index

/-- explicit_script() of a derived descriptor. -/
def DerivedDescriptor.explicit_script (dd : DerivedDescriptor) : Script :=
  dd.base.explicit_script_at dd.index

/-- desc_type() of a derived descriptor (derivation keeps the type). -/
def DerivedDescriptor.desc_type (dd : DerivedDescriptor) : DescriptorType :=
  dd.base.dtype

/-- The inversion of the hd_keypaths map built at the top of
derive_from_hd_keypaths: the full candidate paths whose recorded root
fingerprint is f, in entry order (index.get returns no entry exactly when
this list is empty). -/
def paths_for (hd : HDKeyPaths) (f : Fingerprint) : List DerivationPath :=
  (hd.filter fun e => e.2.1 == f).map fun e => e.2.2

/-- The acceptance test applied to one candidate path in
derive_from_hd_keypaths: xpub.matches must return a prefix, and the
candidate with that prefix removed must be exactly one normal (non-hardened)
step, whose index is the result. -/
def remainder_index (x : DescriptorXKey) (path : DerivationPath) : Option Nat :=
  match x.matches x.root_fingerprint path with
  | none => none
  | some pfx =>
    match path.drop pfx.length with
    | [ChildNumber.Normal index] => some index
    | _ => none

/-- The candidate-path loop of derive_from_hd_keypaths for one wildcard key:
walk the key's candidate paths in order; an accepted candidate derives the
descriptor at its index and (when a UTXO is supplied) double checks the
script_pubkey, aborting the loop with the state accumulated so far on a
mismatch, otherwise overwriting the found descriptor and continuing. -/
def process_paths (d : Descriptor) (x : DescriptorXKey) (utxo : Option TxOut) :
    List DerivationPath → Option DerivedDescriptor → Option DerivedDescriptor
  | [], found => found
  | path :: rest, found =>
    match remainder_index x path with
    | none => process_paths d x utxo rest found
    | some index =>
      match utxo with
      | some u =>
        if (d.as_derived index).script_pubkey ≠ u.script_pubkey then found
        else process_paths d x utxo rest (some (d.as_derived index))
      | none => process_paths d x utxo rest (some (d.as_derived index))

/-- The per-key body of the for_each_key closure in
derive_from_hd_keypaths: once a descriptor is found later keys are not
examined; single keys and non-wildcard extended keys are skipped; a
wildcard key with no candidate path for its root fingerprint is skipped;
otherwise its candidate paths are processed. -/
def process_key (d : Descriptor) (hd : HDKeyPaths) (utxo : Option TxOut)
    (found : Option DerivedDescriptor) (key : DescriptorPublicKey) :
    Option DerivedDescriptor :=
  if found.isSome then found
  else
    match key with
    | DescriptorPublicKey.Single _ => found
    | DescriptorPublicKey.XPub x =>
      if x.wildcard == Wildcard.None then found
      else
        match paths_for hd x.root_fingerprint with
        | [] => found
        | paths => process_paths d x utxo paths found

/-- DescriptorMeta::derive_from_hd_keypaths: fold the per-key closure over
the descriptor's keys in structural order, starting from no match. -/
def Descriptor.derive_from_hd_keypaths (d : Descriptor) (hd : HDKeyPaths)
    (utxo : Option TxOut) : Option DerivedDescriptor :=
  d.keys.foldl (fun found key => process_key d hd utxo found key) none

/-- Descriptor::is_deriveable (external miniscript, modelled from the spec:
the descriptor is wildcard-bearing). -/
def Descriptor.is_deriveable (d : Descriptor) : Bool :=
  d.keys.any fun k =>
    match k with
    | DescriptorPublicKey.XPub x => x.wildcard != Wildcard.None
    | _ => false

/-- DescriptorMeta::derive_from_psbt_input: try the HD-path matcher first
and return its match; a wildcard-bearing descriptor with no HD match cannot
be brute-forced, so it yields nothing; otherwise compare the fixed
instantiation by descriptor type against the supplied UTXO's script_pubkey,
the PSBT input's redeem script, or its witness script. -/
def Descriptor.derive_from_psbt_input (d : Descriptor) (psbt_input : PsbtInput)
    (utxo : Option TxOut) : Option DerivedDescriptor :=
  match d.derive_from_hd_keypaths psbt_input.bip32_derivation utxo with
  | some derived => some derived
  | none =>
    if d.is_deriveable then none
    else
      match (d.as_derived_fixed).desc_type with
      | DescriptorType.Pkh | DescriptorType.Wpkh | DescriptorType.ShWpkh =>
        match utxo with
        | some u =>
          if (d.as_derived_fixed).script_pubkey = u.script_pubkey then
            some d.as_derived_fixed
          else none
        | none => none
      | DescriptorType.Bare | DescriptorType.Sh | DescriptorType.ShSortedMulti =>
        match psbt_input.redeem_script with
        | some rs =>
          if (d.as_derived_fixed).explicit_script = rs then
            some d.as_derived_fixed
          else none
        | none => none
      | DescriptorType.Wsh | DescriptorType.ShWsh
      | DescriptorType.ShWshSortedMulti | DescriptorType.WshSortedMulti =>
        match psbt_input.witness_script with
        | some ws =>
          if (d.as_derived_fixed).explicit_script = ws then
            some d.as_derived_fixed
          else none
        | none => none

/-- BTreeMap::insert on the entry list: replace the value of an existing
key in place, or append a fresh entry. -/
def insert_entry (l : HDKeyPaths) (k : PubKey) (v : Fingerprint × DerivationPath) :
    HDKeyPaths :=
  if l.any fun e => e.1 == k then
    l.map fun e => if e.1 == k then (k, v) else e
  else
    l ++ [(k, v)]

/-- BTreeMap lookup on the entry list. -/
def lookup_entry (l : HDKeyPaths) (k : PubKey) :
    Option (Fingerprint × DerivationPath) :=
  (l.find? fun e => e.1 == k).map fun e => e.2

/-- DerivedDescriptorMeta::get_hd_keypaths: for every extended key of the
derived descriptor, derive its concrete public key at the pinned
derivation path and record it against the key's root fingerprint and full
path. -/
def DerivedDescriptor.get_hd_keypaths (dd : DerivedDescriptor) : HDKeyPaths :=
  dd.keys.foldl
    (fun answer key =>
      match key with
      | DescriptorPublicKey.XPub x =>
          insert_entry answer (x.xkey.derive_pub x.derivation_path)
            (x.root_fingerprint, x.full_path [])
      | _ => answer)
    []

/-- The hardened-exposure condition as a proposition: the descriptor has an
extended key whose wildcard kind is hardened or whose base derivation path
contains a hardened step. -/
def has_hardened_xpub (d : Descriptor) : Prop :=
  ∃ x : DescriptorXKey, DescriptorPublicKey.XPub x ∈ d.keys ∧
    (x.wildcard = Wildcard.Hardened ∨
      ∃ c ∈ x.derivation_path, c.is_hardened = true)

lemma hardened_steps_iff (d : Descriptor) :
    descriptor_contains_hardened_steps d = true ↔ has_hardened_xpub d := by
  unfold descriptor_contains_hardened_steps has_hardened_xpub
  rw [List.any_eq_true]
  constructor
  · rintro ⟨k, hk, hp⟩
    cases k with
    | Single p => simp at hp
    | XPub x =>
      refine ⟨x, hk, ?_⟩
      simpa only [Bool.or_eq_true, beq_iff_eq, List.any_eq_true] using hp
  · rintro ⟨x, hx, hcond⟩
    refine ⟨DescriptorPublicKey.XPub x, hx, ?_⟩
    simpa only [Bool.or_eq_true, beq_iff_eq, List.any_eq_true] using hcond

lemma translate_list_error {f : DescriptorPublicKey → Except DescriptorError DescriptorPublicKey}
    {ks : List DescriptorPublicKey} {e : DescriptorError}
    (h : translate_list f ks = Except.error e) : ∃ k ∈ ks, f k = Except.error e := by
  induction ks with
  | nil => simp [translate_list] at h
  | cons k rest ih =>
    unfold translate_list at h
    split at h
    · rename_i e' hf
      obtain rfl : e' = e := Except.error.inj h
      exact ⟨k, List.mem_cons_self k rest, hf⟩
    · rename_i k' hf
      split at h
      · rename_i e' ht
        obtain rfl : e' = e := Except.error.inj h
        obtain ⟨k0, hk0, hfk0⟩ := ih ht
        exact ⟨k0, List.mem_cons_of_mem _ hk0, hfk0⟩
      · exact Except.noConfusion h

lemma check_key_error {vn : DescriptorPublicKey → List Network} {network : Network}
    {pk : DescriptorPublicKey} {e : DescriptorError}
    (h : check_key vn network pk = Except.error e) :
    e = DescriptorError.Key KeyError.InvalidNetwork := by
  unfold check_key at h
  split at h
  · exact absurd h (by simp)
  · exact (Except.error.inj h).symm

lemma fix_key_error {valid_networks : List Network} {network : Network}
    {pk : DescriptorPublicKey} {e : DescriptorError}
    (h : fix_key valid_networks network pk = Except.error e) :
    e = DescriptorError.Key KeyError.InvalidNetwork := by
  unfold fix_key at h
  split at h
  · exact Except.noConfusion h
  · exact (Except.error.inj h).symm

lemma pair_no_hdx (vn : DescriptorPublicKey → List Network) (d : Descriptor)
    (km : KeyMap) (network : Network) :
    pair_into_wallet_descriptor vn d km network
      ≠ Except.error DescriptorError.HardenedDerivationXpub := by
  unfold pair_into_wallet_descriptor Descriptor.translate_pk
  intro h
  split at h
  · rename_i e heq
    obtain rfl : e = DescriptorError.HardenedDerivationXpub := Except.error.inj h
    split at heq
    · rename_i e' ht
      obtain rfl : e' = DescriptorError.HardenedDerivationXpub := Except.error.inj heq
      obtain ⟨k, _, hk⟩ := translate_list_error ht
      exact DescriptorError.noConfusion (check_key_error hk)
    · exact Except.noConfusion heq
  · exact Except.noConfusion h

lemma template_no_hdx (d : Descriptor) (km : KeyMap)
    (valid_networks : List Network) (network : Network) :
    template_into_wallet_descriptor d km valid_networks network
      ≠ Except.error DescriptorError.HardenedDerivationXpub := by
  unfold template_into_wallet_descriptor Descriptor.translate_pk
  intro h
  split at h
  · rename_i e heq
    obtain rfl : e = DescriptorError.HardenedDerivationXpub := Except.error.inj h
    split at heq
    · rename_i e' ht
      obtain rfl : e' = DescriptorError.HardenedDerivationXpub := Except.error.inj heq
      obtain ⟨k, _, hk⟩ := translate_list_error ht
      exact DescriptorError.noConfusion (fix_key_error hk)
    · exact Except.noConfusion heq
  · exact Except.noConfusion h

lemma str_no_hdx (gc : List Char → Except Unit (List Char))
    (parse : List Char → Except Nat (Descriptor × KeyMap))
    (vn : DescriptorPublicKey → List Network) (s : List Char) (network : Network) :
    str_into_wallet_descriptor gc parse vn s network
      ≠ Except.error DescriptorError.HardenedDerivationXpub := by
  unfold str_into_wallet_descriptor
  intro h
  split at h
  · rename_i e hg
    obtain rfl : e = DescriptorError.HardenedDerivationXpub := Except.error.inj h
    unfold checksum_gate at hg
    split at hg
    · split at hg
      · exact Except.noConfusion hg
      · exact DescriptorError.noConfusion (Except.error.inj hg)
    · exact Except.noConfusion hg
  · rename_i body hg
    split at h
    · rename_i e hp
      exact DescriptorError.noConfusion (Except.error.inj h)
    · rename_i d km hp
      exact pair_no_hdx vn d km network h

lemma iwd_no_hdx (gc : List Char → Except Unit (List Char))
    (parse : List Char → Except Nat (Descriptor × KeyMap))
    (vn : DescriptorPublicKey → List Network)
    (src : DescriptorSource) (network : Network) :
    into_wallet_descriptor gc parse vn src network
      ≠ Except.error DescriptorError.HardenedDerivationXpub := by
  cases src with
  | Str s => exact str_no_hdx gc parse vn s network
  | Desc d => exact pair_no_hdx vn d [] network
  | Pair d km => exact pair_no_hdx vn d km network
  | Template d km valid_networks => exact template_no_hdx d km valid_networks network

/-- C1: for every input source and target network,
into_wallet_descriptor_checked fails with HardenedDerivationXpub if and only
if normalization itself succeeds and the normalized descriptor contains an
extended key whose wildcard is hardened or whose base derivation path has a
hardened step; and when no such key exists it returns exactly the pair
normalization produced, unchanged. -/
theorem C1_hardened_guard (gc : List Char → Except Unit (List Char))
    (parse : List Char → Except Nat (Descriptor × KeyMap))
    (vn : DescriptorPublicKey → List Network)
    (src : DescriptorSource) (network : Network) :
    (into_wallet_descriptor_checked gc parse vn src network
        = Except.error DescriptorError.HardenedDerivationXpub
      ↔ ∃ pair, into_wallet_descriptor gc parse vn src network = Except.ok pair
          ∧ has_hardened_xpub pair.1)
    ∧ (∀ pair, into_wallet_descriptor gc parse vn src network = Except.ok pair →
        ¬ has_hardened_xpub pair.1 →
        into_wallet_descriptor_checked gc parse vn src network = Except.ok pair) := by
  constructor
  · constructor
    · intro h
      cases hi : into_wallet_descriptor gc parse vn src network with
      | error e =>
        have hred : into_wallet_descriptor_checked gc parse vn src network
            = Except.error e := by
          unfold into_wallet_descriptor_checked; rw [hi]
        rw [hred] at h
        obtain rfl : e = DescriptorError.HardenedDerivationXpub := Except.error.inj h
        exact absurd hi (iwd_no_hdx gc parse vn src network)
      | ok pair =>
        obtain ⟨descriptor, keymap⟩ := pair
        have hred : into_wallet_descriptor_checked gc parse vn src network
            = if descriptor_contains_hardened_steps descriptor then
                Except.error DescriptorError.HardenedDerivationXpub
              else Except.ok (descriptor, keymap) := by
          unfold into_wallet_descriptor_checked; rw [hi]
        rw [hred] at h
        split at h
        · rename_i hh
          exact ⟨(descriptor, keymap), rfl, (hardened_steps_iff descriptor).mp hh⟩
        · exact Except.noConfusion h
    · rintro ⟨pair, hok, hhard⟩
      obtain ⟨descriptor, keymap⟩ := pair
      have hred : into_wallet_descriptor_checked gc parse vn src network
          = if descriptor_contains_hardened_steps descriptor then
              Except.error DescriptorError.HardenedDerivationXpub
            else Except.ok (descriptor, keymap) := by
        unfold into_wallet_descriptor_checked; rw [hok]
      rw [hred]
      simp [(hardened_steps_iff descriptor).mpr hhard]
  · intro pair hok hno
    obtain ⟨descriptor, keymap⟩ := pair
    have hred : into_wallet_descriptor_checked gc parse vn src network
        = if descriptor_contains_hardened_steps descriptor then
            Except.error DescriptorError.HardenedDerivationXpub
          else Except.ok (descriptor, keymap) := by
      unfold into_wallet_descriptor_checked; rw [hok]
    rw [hred]
    have hfalse : descriptor_contains_hardened_steps descriptor = false := by
      cases hb : descriptor_contains_hardened_steps descriptor with
      | false => rfl
      | true => exact absurd ((hardened_steps_iff descriptor).mp hb) hno
    simp [hfalse]

lemma takeWhile_all_append {α} (p : α → Bool) {l1 : List α} (l2 : List α)
    (h : ∀ a ∈ l1, p a = true) :
    (l1 ++ l2).takeWhile p = l1 ++ l2.takeWhile p := by
  induction l1 with
  | nil => simp
  | cons a l ih =>
    have ha : p a = true := h a (List.mem_cons_self a l)
    simp only [List.cons_append, List.takeWhile_cons, ha, if_true]
    rw [ih fun b hb => h b (List.mem_cons_of_mem a hb)]

lemma dropWhile_all_append {α} (p : α → Bool) {l1 : List α} (l2 : List α)
    (h : ∀ a ∈ l1, p a = true) :
    (l1 ++ l2).dropWhile p = l2.dropWhile p := by
  induction l1 with
  | nil => simp
  | cons a l ih =>
    have ha : p a = true := h a (List.mem_cons_self a l)
    simp only [List.cons_append, List.dropWhile_cons, ha, if_true]
    exact ih fun b hb => h b (List.mem_cons_of_mem a hb)

lemma mem_all_ne {d : List Char} (hno : '#' ∉ d) :
    ∀ a ∈ d, (a != '#') = true := by
  intro a ha
  exact bne_iff_ne.mpr fun hEq => hno (hEq ▸ ha)

lemma gate_no_hash (gc : List Char → Except Unit (List Char)) {d : List Char}
    (hno : '#' ∉ d) : checksum_gate gc d = Except.ok d := by
  unfold checksum_gate
  have : d.contains '#' = false := by
    cases hb : d.contains '#' with
    | false => rfl
    | true => exact absurd (List.mem_of_elem_eq_true hb) hno
  simp only [this, Bool.false_eq_true, if_false]

lemma gate_split (gc : List Char → Except Unit (List Char)) {d : List Char}
    (t : List Char) (hno : '#' ∉ d) :
    checksum_gate gc (d ++ '#' :: t)
      = if (match gc d with
            | Except.ok computed => computed == t
            | Except.error _ => false) then Except.ok d
        else Except.error DescriptorError.InvalidDescriptorChecksum := by
  unfold checksum_gate
  have hcontains : (d ++ '#' :: t).contains '#' = true :=
    List.elem_eq_true_of_mem (List.mem_append_right d (List.mem_cons_self '#' t))
  have htake : (d ++ '#' :: t).takeWhile (fun c => c != '#') = d := by
    rw [takeWhile_all_append _ _ (mem_all_ne hno)]
    simp [List.takeWhile_cons]
  have hdrop : (d ++ '#' :: t).dropWhile (fun c => c != '#') = '#' :: t := by
    rw [dropWhile_all_append _ _ (mem_all_ne hno)]
    simp [List.dropWhile_cons]
  rw [hcontains, htake, hdrop]
  simp

/-- C6: for every descriptor string d not containing '#', normalizing
d ++ "#" ++ checksum(d) at a network produces exactly the same result as
normalizing d, so one succeeds iff the other does, with identical
(descriptor, keymap) values. -/
theorem C6_checksum_roundtrip (gc : List Char → Except Unit (List Char))
    (parse : List Char → Except Nat (Descriptor × KeyMap))
    (vn : DescriptorPublicKey → List Network)
    (d c : List Char) (network : Network)
    (hno : '#' ∉ d) (hc : gc d = Except.ok c) :
    str_into_wallet_descriptor gc parse vn (d ++ '#' :: c) network
      = str_into_wallet_descriptor gc parse vn d network := by
  unfold str_into_wallet_descriptor
  rw [gate_split gc c hno, gate_no_hash gc hno, hc]
  simp

/-- C7: for every descriptor string d not containing '#' and every suffix s
other than checksum(d), normalization of d ++ "#" ++ s fails with
InvalidDescriptorChecksum, whatever the grammar parser would do (the body is
never handed to it). -/
theorem C7_checksum_mismatch (gc : List Char → Except Unit (List Char))
    (vn : DescriptorPublicKey → List Network)
    (d s c : List Char) (network : Network)
    (hno : '#' ∉ d) (hc : gc d = Except.ok c) (hne : s ≠ c) :
    ∀ parse : List Char → Except Nat (Descriptor × KeyMap),
      str_into_wallet_descriptor gc parse vn (d ++ '#' :: s) network
        = Except.error DescriptorError.InvalidDescriptorChecksum := by
  intro parse
  unfold str_into_wallet_descriptor
  rw [gate_split gc s hno, hc]
  have : (c == s) = false := beq_eq_false_iff_ne.mpr fun hEq => hne (hEq.symm)
  simp [this]

/-- Witness for C6 at a concrete checksum function and string. -/
theorem C6_witness :
    str_into_wallet_descriptor (fun _ => Except.ok ['q', 'z'])
        (fun _ => Except.error 3) (fun _ => []) (['w', 'p', 'k', 'h'] ++ '#' :: ['q', 'z'])
        Network.Testnet
      = str_into_wallet_descriptor (fun _ => Except.ok ['q', 'z'])
        (fun _ => Except.error 3) (fun _ => []) ['w', 'p', 'k', 'h'] Network.Testnet :=
  C6_checksum_roundtrip (fun _ => Except.ok ['q', 'z']) (fun _ => Except.error 3)
    (fun _ => []) ['w', 'p', 'k', 'h'] ['q', 'z'] Network.Testnet (by decide) rfl

/-- Witness for C7 at a concrete checksum function, string and wrong suffix. -/
theorem C7_witness :
    str_into_wallet_descriptor (fun _ => Except.ok ['q', 'z'])
        (fun _ => Except.ok (Descriptor.mk [] DescriptorType.Bare (fun _ => 0) (fun _ => 0), []))
        (fun _ => [Network.Testnet]) (['w', 'p', 'k', 'h'] ++ '#' :: ['q', 'x'])
        Network.Testnet
      = Except.error DescriptorError.InvalidDescriptorChecksum :=
  C7_checksum_mismatch (fun _ => Except.ok ['q', 'z']) (fun _ => [Network.Testnet])
    ['w', 'p', 'k', 'h'] ['q', 'x'] ['q', 'z'] Network.Testnet (by decide) rfl
    (by decide)
    (fun _ => Except.ok (Descriptor.mk [] DescriptorType.Bare (fun _ => 0) (fun _ => 0), []))

lemma translate_check_key_ok {vn : DescriptorPublicKey → List Network}
    {network : Network} {ks : List DescriptorPublicKey}
    (h : ∀ k ∈ ks, network ∈ vn k) :
    translate_list (check_key vn network) ks = Except.ok ks := by
  induction ks with
  | nil => rfl
  | cons k rest ih =>
    unfold translate_list
    have hk : check_key vn network k = Except.ok k := by
      unfold check_key
      simp [h k (List.mem_cons_self k rest)]
    rw [hk, ih fun b hb => h b (List.mem_cons_of_mem _ hb)]

lemma translate_check_key_error {vn : DescriptorPublicKey → List Network}
    {network : Network} {ks : List DescriptorPublicKey}
    (h : ∃ k ∈ ks, network ∉ vn k) :
    translate_list (check_key vn network) ks
      = Except.error (DescriptorError.Key KeyError.InvalidNetwork) := by
  induction ks with
  | nil =>
    obtain ⟨k, hk, _⟩ := h
    exact absurd hk (List.not_mem_nil k)
  | cons k rest ih =>
    unfold translate_list
    by_cases hmem : network ∈ vn k
    · have hk : check_key vn network k = Except.ok k := by
        unfold check_key
        simp [hmem]
      rw [hk]
      have hrest : ∃ k0 ∈ rest, network ∉ vn k0 := by
        obtain ⟨k0, hk0, hn0⟩ := h
        rcases List.mem_cons.mp hk0 with rfl | h0
        · exact absurd hmem hn0
        · exact ⟨k0, h0, hn0⟩
      rw [ih hrest]
    · have hk : check_key vn network k
          = Except.error (DescriptorError.Key KeyError.InvalidNetwork) := by
        unfold check_key
        simp [hmem]
      rw [hk]

/-- C8: the (descriptor, keymap) normalization fails with
Key(InvalidNetwork) whenever some key's declared valid-network set does not
contain the target network; on success every key is validated and the
(descriptor, keymap) pair is returned unchanged. -/
theorem C8_pair_network_check (vn : DescriptorPublicKey → List Network)
    (d : Descriptor) (km : KeyMap) (network : Network) :
    ((∃ k ∈ d.keys, network ∉ vn k) →
      pair_into_wallet_descriptor vn d km network
        = Except.error (DescriptorError.Key KeyError.InvalidNetwork))
    ∧ ((∀ k ∈ d.keys, network ∈ vn k) →
      pair_into_wallet_descriptor vn d km network = Except.ok (d, km))
    ∧ (∀ p, pair_into_wallet_descriptor vn d km network = Except.ok p →
        p = (d, km) ∧ ∀ k ∈ d.keys, network ∈ vn k) := by
  have hok : (∀ k ∈ d.keys, network ∈ vn k) →
      pair_into_wallet_descriptor vn d km network = Except.ok (d, km) := by
    intro h
    unfold pair_into_wallet_descriptor Descriptor.translate_pk
    rw [translate_check_key_ok h]
  have herr : (∃ k ∈ d.keys, network ∉ vn k) →
      pair_into_wallet_descriptor vn d km network
        = Except.error (DescriptorError.Key KeyError.InvalidNetwork) := by
    intro h
    unfold pair_into_wallet_descriptor Descriptor.translate_pk
    rw [translate_check_key_error h]
  refine ⟨herr, hok, ?_⟩
  intro p hp
  by_cases hbad : ∃ k ∈ d.keys, network ∉ vn k
  · rw [herr hbad] at hp
    exact Except.noConfusion hp
  · push_neg at hbad
    have hall : ∀ k ∈ d.keys, network ∈ vn k := hbad
    rw [hok hall] at hp
    exact ⟨(Except.ok.inj hp).symm, hall⟩

lemma remainder_index_of_matches {x : DescriptorXKey} {path : DerivationPath}
    {pfx : DerivationPath} (hm : x.matches x.root_fingerprint path = some pfx) :
    remainder_index x path
      = match path.drop pfx.length with
        | [ChildNumber.Normal index] => some index
        | _ => none := by
  unfold remainder_index
  rw [hm]

lemma remainder_index_eq_some {x : DescriptorXKey} {path : DerivationPath} {i : Nat} :
    remainder_index x path = some i ↔
      ∃ pfx, x.matches x.root_fingerprint path = some pfx ∧
        path.drop pfx.length = [ChildNumber.Normal i] := by
  constructor
  · intro h
    unfold remainder_index at h
    split at h
    · exact Option.noConfusion h
    · rename_i pfx hm
      split at h
      · rename_i j hdrop
        obtain rfl : j = i := Option.some.inj h
        exact ⟨pfx, hm, hdrop⟩
      · exact Option.noConfusion h
  · rintro ⟨pfx, hm, hdrop⟩
    rw [remainder_index_of_matches hm, hdrop]

lemma process_paths_sound {d : Descriptor} {x : DescriptorXKey} {utxo : Option TxOut} :
    ∀ {ps : List DerivationPath} {found : Option DerivedDescriptor} {dd : DerivedDescriptor},
      process_paths d x utxo ps found = some dd →
      found = some dd ∨ ∃ path ∈ ps,
        remainder_index x path = some dd.index ∧ dd = d.as_derived dd.index := by
  intro ps
  induction ps with
  | nil => intro found dd h; exact Or.inl h
  | cons path rest ih =>
    intro found dd h
    unfold process_paths at h
    split at h
    · rcases ih h with hfound | ⟨p0, hp0, hrem⟩
      · exact Or.inl hfound
      · exact Or.inr ⟨p0, List.mem_cons_of_mem _ hp0, hrem⟩
    · rename_i index hri
      have accept : process_paths d x utxo rest (some (d.as_derived index)) = some dd →
          found = some dd ∨ ∃ p0 ∈ path :: rest,
            remainder_index x p0 = some dd.index ∧ dd = d.as_derived dd.index := by
        intro h2
        rcases ih h2 with hfound | ⟨p0, hp0, hrem⟩
        · obtain rfl : d.as_derived index = dd := Option.some.inj hfound
          exact Or.inr ⟨path, List.mem_cons_self path rest, hri, rfl⟩
        · exact Or.inr ⟨p0, List.mem_cons_of_mem _ hp0, hrem⟩
      split at h
      · split at h
        · exact Or.inl h
        · exact accept h
      · exact accept h

lemma process_key_some (d : Descriptor) (hd : HDKeyPaths) (utxo : Option TxOut)
    (dd : DerivedDescriptor) (key : DescriptorPublicKey) :
    process_key d hd utxo (some dd) key = some dd := by
  unfold process_key
  simp

lemma process_key_none_xpub (d : Descriptor) (hd : HDKeyPaths)
    (utxo : Option TxOut) (x : DescriptorXKey) :
    process_key d hd utxo none (DescriptorPublicKey.XPub x)
      = if x.wildcard == Wildcard.None then none
        else
          match paths_for hd x.root_fingerprint with
          | [] => none
          | paths => process_paths d x utxo paths none := rfl

lemma foldl_process_some (d : Descriptor) (hd : HDKeyPaths) (utxo : Option TxOut)
    (dd : DerivedDescriptor) :
    ∀ ks : List DescriptorPublicKey,
      List.foldl (fun found key => process_key d hd utxo found key) (some dd) ks
        = some dd := by
  intro ks
  induction ks with
  | nil => rfl
  | cons k rest ih => rw [List.foldl_cons, process_key_some, ih]

/-- The grounds on which one key of the descriptor yields the accepted
match of derive_from_hd_keypaths: the key is a wildcard extended key, some
candidate path recorded under its root fingerprint is matched by the key
with a remainder of exactly one normal step, and the result is the
descriptor derived at that step's index. -/
def key_yields (d : Descriptor) (hd : HDKeyPaths) (key : DescriptorPublicKey)
    (dd : DerivedDescriptor) : Prop :=
  ∃ x : DescriptorXKey, key = DescriptorPublicKey.XPub x ∧
    x.wildcard ≠ Wildcard.None ∧
    ∃ path ∈ paths_for hd x.root_fingerprint,
      ∃ pfx, x.matches x.root_fingerprint path = some pfx ∧
        path.drop pfx.length = [ChildNumber.Normal dd.index] ∧
        dd = d.as_derived dd.index

lemma process_key_sound {d : Descriptor} {hd : HDKeyPaths} {utxo : Option TxOut}
    {found : Option DerivedDescriptor} {key : DescriptorPublicKey}
    {dd : DerivedDescriptor}
    (h : process_key d hd utxo found key = some dd) :
    found = some dd ∨ key_yields d hd key dd := by
  unfold process_key at h
  split at h
  · exact Or.inl h
  · rename_i hnone
    split at h
    · exact Or.inl h
    · rename_i x
      split at h
      · exact Or.inl h
      · rename_i hwild
        split at h
        · exact Or.inl h
        · rcases process_paths_sound h with hfound | ⟨path, hpath, hri, hdd⟩
          · exact Or.inl hfound
          · refine Or.inr ⟨x, rfl, ?_, path, hpath, ?_⟩
            · intro hEq
              rw [hEq] at hwild
              exact hwild (by rfl)
            · obtain ⟨pfx, hm, hdrop⟩ := remainder_index_eq_some.mp hri
              exact ⟨pfx, hm, hdrop, hdd⟩

lemma foldl_process_sound {d : Descriptor} {hd : HDKeyPaths} {utxo : Option TxOut} :
    ∀ {ks : List DescriptorPublicKey} {s : Option DerivedDescriptor}
      {dd : DerivedDescriptor},
      List.foldl (fun found key => process_key d hd utxo found key) s ks = some dd →
      s = some dd ∨ ∃ key ∈ ks, key_yields d hd key dd := by
  intro ks
  induction ks with
  | nil => intro s dd h; exact Or.inl h
  | cons k rest ih =>
    intro s dd h
    rw [List.foldl_cons] at h
    rcases ih h with hstep | ⟨key, hkey, hy⟩
    · rcases process_key_sound hstep with hs | hy
      · exact Or.inl hs
      · exact Or.inr ⟨k, List.mem_cons_self k rest, hy⟩
    · exact Or.inr ⟨key, List.mem_cons_of_mem _ hkey, hy⟩

/-- C2: whenever derive_from_hd_keypaths returns a derived descriptor, its
pinned index came from some wildcard extended key of the descriptor and
some candidate path recorded under that key's root fingerprint, such that
the key matched a prefix of the candidate and the remainder past that
prefix was exactly one normal (non-hardened) step carrying the index. -/
theorem C2_hd_match_sound (d : Descriptor) (hd : HDKeyPaths)
    (utxo : Option TxOut) (dd : DerivedDescriptor)
    (h : d.derive_from_hd_keypaths hd utxo = some dd) :
    ∃ x : DescriptorXKey, DescriptorPublicKey.XPub x ∈ d.keys ∧
      x.wildcard ≠ Wildcard.None ∧
      ∃ path ∈ paths_for hd x.root_fingerprint,
        ∃ pfx, x.matches x.root_fingerprint path = some pfx ∧
          path.drop pfx.length = [ChildNumber.Normal dd.index] ∧
          dd = d.as_derived dd.index := by
  unfold Descriptor.derive_from_hd_keypaths at h
  rcases foldl_process_sound h with hnone | ⟨key, hkey, x, rfl, hrest⟩
  · exact Option.noConfusion hnone
  · exact ⟨x, hkey, hrest⟩

/-- An extended key used in the concrete examples, fingerprint 1. -/
def exXKeyA : ExtendedPubKey :=
  { network := Network.Testnet, fingerprint := 1,
    derive_pub := fun p => 100 + p.length }

/-- An extended key used in the concrete examples, fingerprint 2. -/
def exXKeyB : ExtendedPubKey :=
  { network := Network.Testnet, fingerprint := 2,
    derive_pub := fun p => 200 + p.length }

/-- exXKeyA referenced at the wildcard path 0/*. -/
def exWildA : DescriptorXKey :=
  { xkey := exXKeyA, origin := none,
    derivation_path := [ChildNumber.Normal 0], wildcard := Wildcard.Unhardened }

/-- exXKeyA referenced at the fixed path 0/5. -/
def exFixedA : DescriptorXKey :=
  { xkey := exXKeyA, origin := none,
    derivation_path := [ChildNumber.Normal 0, ChildNumber.Normal 5],
    wildcard := Wildcard.None }

/-- The disambiguation-scenario descriptor: the same extended key once at
the wildcard path 0/* and once at the fixed path 0/5. -/
def exDescC3 : Descriptor :=
  { keys := [DescriptorPublicKey.XPub exWildA, DescriptorPublicKey.XPub exFixedA],
    dtype := DescriptorType.Sh,
    script_pubkey_at := fun i => 10 + i,
    explicit_script_at := fun i => 20 + i }

/-- Evidence whose single full path is 0/1 under fingerprint 1. -/
def exHdC3 : HDKeyPaths := [(77, 1, [ChildNumber.Normal 0, ChildNumber.Normal 1])]

/-- C3: derive_from_hd_keypaths visits the keys in descriptor structural
order and stops once one wildcard key yielded an accepted match (later keys
leave the result untouched); keys whose wildcard kind is none, and single
keys, are skipped; consequently, for the descriptor referencing one key at
0/* and at 0/5 with evidence 0/1, the resolved index is 1, not 5. -/
theorem C3_first_match_wins :
    (∀ (d : Descriptor) (hd : HDKeyPaths) (utxo : Option TxOut)
        (ks1 ks2 : List DescriptorPublicKey) (dd : DerivedDescriptor),
      d.keys = ks1 ++ ks2 →
      List.foldl (fun found key => process_key d hd utxo found key) none ks1
        = some dd →
      d.derive_from_hd_keypaths hd utxo = some dd)
    ∧ (∀ (d : Descriptor) (hd : HDKeyPaths) (utxo : Option TxOut)
        (found : Option DerivedDescriptor) (x : DescriptorXKey),
      x.wildcard = Wildcard.None →
      process_key d hd utxo found (DescriptorPublicKey.XPub x) = found)
    ∧ (∀ (d : Descriptor) (hd : HDKeyPaths) (utxo : Option TxOut)
        (found : Option DerivedDescriptor) (p : PubKey),
      process_key d hd utxo found (DescriptorPublicKey.Single p) = found)
    ∧ (exDescC3.derive_from_hd_keypaths exHdC3 none).map DerivedDescriptor.index
        = some 1 := by
  refine ⟨?_, ?_, ?_, rfl⟩
  · intro d hd utxo ks1 ks2 dd hsplit hfound
    unfold Descriptor.derive_from_hd_keypaths
    rw [hsplit, List.foldl_append, hfound, foldl_process_some]
  · intro d hd utxo found x hx
    cases found with
    | none =>
      rw [process_key_none_xpub, hx]
      rfl
    | some dd => exact process_key_some d hd utxo dd _
  · intro d hd utxo found p
    cases found with
    | none =>
      unfold process_key
      rfl
    | some dd => exact process_key_some d hd utxo dd _

/-- C10 (amended): when a UTXO is supplied and a candidate path passes the
prefix and length-one-normal-remainder test but the descriptor derived at
that index disagrees with the UTXO's script_pubkey, the scan of that key's
candidate paths is aborted: the remaining candidates of that key are
ignored and whatever was accumulated so far is kept. -/
theorem C10_utxo_mismatch_aborts_key (d : Descriptor) (x : DescriptorXKey)
    (u : TxOut) (path : DerivationPath) (rest : List DerivationPath)
    (found : Option DerivedDescriptor) (pfx : DerivationPath) (i : Nat)
    (hm : x.matches x.root_fingerprint path = some pfx)
    (hrem : path.drop pfx.length = [ChildNumber.Normal i])
    (hmis : (d.as_derived i).script_pubkey ≠ u.script_pubkey) :
    process_paths d x (some u) (path :: rest) found = found := by
  have hri : remainder_index x path = some i :=
    remainder_index_eq_some.mpr ⟨pfx, hm, hrem⟩
  unfold process_paths
  rw [hri]
  simp [hmis]

/-- Witness for the amended C10 at concrete inputs. -/
theorem C10_witness :
    process_paths exDescC3 exWildA (some (TxOut.mk 0 999))
      ([ChildNumber.Normal 0, ChildNumber.Normal 1]
        :: [[ChildNumber.Normal 0, ChildNumber.Normal 5]]) none = none :=
  C10_utxo_mismatch_aborts_key exDescC3 exWildA (TxOut.mk 0 999)
    [ChildNumber.Normal 0, ChildNumber.Normal 1]
    [[ChildNumber.Normal 0, ChildNumber.Normal 5]] none
    [ChildNumber.Normal 0] 1 rfl rfl (by decide)

/-- exXKeyA referenced at the bare wildcard path *, for the C10
counterexample. -/
def cxWildA : DescriptorXKey :=
  { xkey := exXKeyA, origin := none, derivation_path := [],
    wildcard := Wildcard.Unhardened }

/-- exXKeyB referenced at the bare wildcard path *, for the C10
counterexample. -/
def cxWildB : DescriptorXKey :=
  { xkey := exXKeyB, origin := none, derivation_path := [],
    wildcard := Wildcard.Unhardened }

/-- The C10 counterexample descriptor: two distinct wildcard extended keys;
only derivation index 7 reproduces the expected script. -/
def cxDesc : Descriptor :=
  { keys := [DescriptorPublicKey.XPub cxWildA, DescriptorPublicKey.XPub cxWildB],
    dtype := DescriptorType.Wsh,
    script_pubkey_at := fun i => if i = 7 then 70 else 0,
    explicit_script_at := fun _ => 0 }

/-- Evidence: a candidate at index 3 under fingerprint 1 (whose derived
script will mismatch) and one at index 7 under fingerprint 2 (which
matches). -/
def cxHd : HDKeyPaths :=
  [(100, 1, [ChildNumber.Normal 3]), (101, 2, [ChildNumber.Normal 7])]

/-- The expected previous output for the C10 counterexample. -/
def cxUtxo : TxOut := { value := 0, script_pubkey := 70 }

/-- C10 counterexample: a candidate of the first wildcard key passes the
prefix and length-one-normal-remainder test while the descriptor derived at
its index has a script_pubkey different from the expected output's, yet
derive_from_hd_keypaths does not return none: it goes on to examine the
later key and returns the derived descriptor pinned at 7. -/
theorem C10_counterexample :
    DescriptorPublicKey.XPub cxWildA ∈ cxDesc.keys ∧
    [ChildNumber.Normal 3] ∈ paths_for cxHd cxWildA.root_fingerprint ∧
    (∃ pfx, cxWildA.matches cxWildA.root_fingerprint [ChildNumber.Normal 3]
        = some pfx ∧
      ([ChildNumber.Normal 3] : DerivationPath).drop pfx.length
        = [ChildNumber.Normal 3]) ∧
    (cxDesc.as_derived 3).script_pubkey ≠ cxUtxo.script_pubkey ∧
    (cxDesc.derive_from_hd_keypaths cxHd (some cxUtxo)).map DerivedDescriptor.index
      = some 7 := by
  refine ⟨List.mem_cons_self .., ?_, ⟨[], rfl, rfl⟩, by decide, rfl⟩
  show [ChildNumber.Normal 3] ∈ [[ChildNumber.Normal 3]]
  exact List.mem_cons_self ..

/-- Witness for C2 at the concrete disambiguation example. -/
theorem C2_witness :
    ∃ x : DescriptorXKey, DescriptorPublicKey.XPub x ∈ exDescC3.keys ∧
      x.wildcard ≠ Wildcard.None ∧
      ∃ path ∈ paths_for exHdC3 x.root_fingerprint,
        ∃ pfx, x.matches x.root_fingerprint path = some pfx ∧
          path.drop pfx.length
            = [ChildNumber.Normal (exDescC3.as_derived 1).index] ∧
          exDescC3.as_derived 1
            = exDescC3.as_derived (exDescC3.as_derived 1).index :=
  C2_hd_match_sound exDescC3 exHdC3 none (exDescC3.as_derived 1) rfl

/-- C4: derive_from_psbt_input always consults the HD-path matcher first
and returns its match when there is one; when the HD matcher finds nothing
and the descriptor is wildcard-bearing, it returns none whatever redeem or
witness scripts the input carries (no script comparison happens). -/
theorem C4_hd_first_no_bruteforce (d : Descriptor) (bip32 : HDKeyPaths)
    (rs ws : Option Script) (utxo : Option TxOut) :
    (∀ dd, d.derive_from_hd_keypaths bip32 utxo = some dd →
      d.derive_from_psbt_input (PsbtInput.mk bip32 rs ws) utxo = some dd)
    ∧ (d.derive_from_hd_keypaths bip32 utxo = none → d.is_deriveable = true →
      d.derive_from_psbt_input (PsbtInput.mk bip32 rs ws) utxo = none) := by
  constructor
  · intro dd h
    unfold Descriptor.derive_from_psbt_input
    rw [show (PsbtInput.mk bip32 rs ws).bip32_derivation = bip32 from rfl, h]
  · intro h hder
    unfold Descriptor.derive_from_psbt_input
    rw [show (PsbtInput.mk bip32 rs ws).bip32_derivation = bip32 from rfl, h, hder]
    rfl

/-- The comparison the claim prescribes for the script-fallback matcher,
written from the claim's words: for Pkh, Wpkh and ShWpkh the derived
script_pubkey must equal the supplied previous output's; for Bare, Sh and
ShSortedMulti the explicit script must equal the input's redeem script; for
Wsh, ShWsh, ShWshSortedMulti and WshSortedMulti the explicit script must
equal the input's witness script; a missing comparison input means no
match. -/
def claim_script_condition (d : Descriptor) (input : PsbtInput)
    (utxo : Option TxOut) : Prop :=
  match d.dtype with
  | DescriptorType.Pkh | DescriptorType.Wpkh | DescriptorType.ShWpkh =>
      ∃ u, utxo = some u ∧
        (d.as_derived_fixed).script_pubkey = u.script_pubkey
  | DescriptorType.Bare | DescriptorType.Sh | DescriptorType.ShSortedMulti =>
      ∃ r0, input.redeem_script = some r0 ∧
        (d.as_derived_fixed).explicit_script = r0
  | DescriptorType.Wsh | DescriptorType.ShWsh
  | DescriptorType.ShWshSortedMulti | DescriptorType.WshSortedMulti =>
      ∃ w0, input.witness_script = some w0 ∧
        (d.as_derived_fixed).explicit_script = w0

/-- C5: for a wildcard-free descriptor on which the HD matcher found
nothing, derive_from_psbt_input returns the fixed derived instantiation
exactly when the comparison prescribed for its descriptor type succeeds,
and nothing otherwise. -/
theorem C5_script_fallback (d : Descriptor) (input : PsbtInput)
    (utxo : Option TxOut)
    (hwild : d.is_deriveable = false)
    (hhd : d.derive_from_hd_keypaths input.bip32_derivation utxo = none)
    (r : DerivedDescriptor) :
    d.derive_from_psbt_input input utxo = some r ↔
      (r = d.as_derived_fixed ∧ claim_script_condition d input utxo) := by
  unfold Descriptor.derive_from_psbt_input claim_script_condition
  rw [hhd, hwild]
  simp only [Bool.false_eq_true, if_false]
  rw [show (d.as_derived_fixed).desc_type = d.dtype from rfl]
  cases hty : d.dtype
  case Bare =>
    cases hrs : input.redeem_script with
    | none => simp
    | some r0 =>
      by_cases hs : (d.as_derived_fixed).explicit_script = r0
      · simp [hs, eq_comm]
      · simp [hs]
  case Sh =>
    cases hrs : input.redeem_script with
    | none => simp
    | some r0 =>
      by_cases hs : (d.as_derived_fixed).explicit_script = r0
      · simp [hs, eq_comm]
      · simp [hs]
  case ShSortedMulti =>
    cases hrs : input.redeem_script with
    | none => simp
    | some r0 =>
      by_cases hs : (d.as_derived_fixed).explicit_script = r0
      · simp [hs, eq_comm]
      · simp [hs]
  case Pkh =>
    cases utxo with
    | none => simp
    | some u =>
      by_cases hs : (d.as_derived_fixed).script_pubkey = u.script_pubkey
      · simp [hs, eq_comm]
      · simp [hs]
  case Wpkh =>
    cases utxo with
    | none => simp
    | some u =>
      by_cases hs : (d.as_derived_fixed).script_pubkey = u.script_pubkey
      · simp [hs, eq_comm]
      · simp [hs]
  case ShWpkh =>
    cases utxo with
    | none => simp
    | some u =>
      by_cases hs : (d.as_derived_fixed).script_pubkey = u.script_pubkey
      · simp [hs, eq_comm]
      · simp [hs]
  case Wsh =>
    cases hws : input.witness_script with
    | none => simp
    | some w0 =>
      by_cases hs : (d.as_derived_fixed).explicit_script = w0
      · simp [hs, eq_comm]
      · simp [hs]
  case ShWsh =>
    cases hws : input.witness_script with
    | none => simp
    | some w0 =>
      by_cases hs : (d.as_derived_fixed).explicit_script = w0
      · simp [hs, eq_comm]
      · simp [hs]
  case ShWshSortedMulti =>
    cases hws : input.witness_script with
    | none => simp
    | some w0 =>
      by_cases hs : (d.as_derived_fixed).explicit_script = w0
      · simp [hs, eq_comm]
      · simp [hs]
  case WshSortedMulti =>
    cases hws : input.witness_script with
    | none => simp
    | some w0 =>
      by_cases hs : (d.as_derived_fixed).explicit_script = w0
      · simp [hs, eq_comm]
      · simp [hs]

/-- A wildcard-free descriptor for the C5 witness. -/
def wDesc : Descriptor :=
  { keys := [DescriptorPublicKey.Single 5], dtype := DescriptorType.Wpkh,
    script_pubkey_at := fun _ => 42, explicit_script_at := fun _ => 9 }

/-- Witness for C5 at a concrete fixed descriptor and matching UTXO. -/
theorem C5_witness :
    wDesc.derive_from_psbt_input (PsbtInput.mk [] none none)
        (some (TxOut.mk 0 42)) = some wDesc.as_derived_fixed ↔
      (wDesc.as_derived_fixed = wDesc.as_derived_fixed ∧
        claim_script_condition wDesc (PsbtInput.mk [] none none)
          (some (TxOut.mk 0 42))) :=
  C5_script_fallback wDesc (PsbtInput.mk [] none none) (some (TxOut.mk 0 42))
    rfl rfl wDesc.as_derived_fixed

/-- The trailing component DescriptorPublicKey::derive appends for each
wildcard kind: nothing for a fixed key, a normal step for an unhardened
wildcard, a hardened step for a hardened wildcard. -/
def pinned_tail (w : Wildcard) (i : Nat) : List ChildNumber :=
  match w with
  | Wildcard.None => []
  | Wildcard.Unhardened => [ChildNumber.Normal i]
  | Wildcard.Hardened => [ChildNumber.Hardened i]

/-- The extended key as it appears in the descriptor derived at index i:
pinned derivation path, wildcard cleared. -/
def derived_xkey (x : DescriptorXKey) (i : Nat) : DescriptorXKey :=
  { x with
    derivation_path := x.derivation_path ++ pinned_tail x.wildcard i,
    wildcard := Wildcard.None }

lemma derive_xpub (x : DescriptorXKey) (i : Nat) :
    (DescriptorPublicKey.XPub x).derive i
      = DescriptorPublicKey.XPub (derived_xkey x i) := by
  cases hw : x.wildcard <;>
    simp [DescriptorPublicKey.derive, derived_xkey, pinned_tail, hw]

/-- The entry get_hd_keypaths records for one extended key: the concrete
public key derived at the key's (pinned) path, mapped to the key's root
fingerprint and full path. -/
def xkey_record (x : DescriptorXKey) : PubKey × Fingerprint × DerivationPath :=
  (x.xkey.derive_pub x.derivation_path, x.root_fingerprint, x.full_path [])

/-- The entries get_hd_keypaths inserts, in key order. -/
def hd_entries (keys : List DescriptorPublicKey) : HDKeyPaths :=
  keys.filterMap fun key =>
    match key with
    | DescriptorPublicKey.XPub x => some (xkey_record x)
    | _ => none

lemma fold_entries_aux :
    ∀ (ks : List DescriptorPublicKey) (acc : HDKeyPaths),
      List.foldl
        (fun answer key =>
          match key with
          | DescriptorPublicKey.XPub x =>
              insert_entry answer (x.xkey.derive_pub x.derivation_path)
                (x.root_fingerprint, x.full_path [])
          | _ => answer) acc ks
      = List.foldl (fun acc e => insert_entry acc e.1 e.2) acc (hd_entries ks) := by
  intro ks
  induction ks with
  | nil => intro acc; rfl
  | cons k rest ih =>
    intro acc
    cases k with
    | Single p => exact ih acc
    | XPub x =>
      exact ih (insert_entry acc (x.xkey.derive_pub x.derivation_path)
        (x.root_fingerprint, x.full_path []))

lemma get_hd_keypaths_eq (dd : DerivedDescriptor) :
    dd.get_hd_keypaths
      = List.foldl (fun acc e => insert_entry acc e.1 e.2) [] (hd_entries dd.keys) :=
  fold_entries_aux dd.keys []

lemma lookup_insert_self (l : HDKeyPaths) (k : PubKey)
    (v : Fingerprint × DerivationPath) :
    lookup_entry (insert_entry l k v) k = some v := by
  unfold insert_entry lookup_entry
  by_cases hany : (l.any fun e => e.1 == k) = true
  · rw [if_pos hany, List.find?_map]
    have hpf : ((fun e : PubKey × Fingerprint × DerivationPath => e.1 == k)
          ∘ fun e => if e.1 == k then (k, v) else e)
        = fun e : PubKey × Fingerprint × DerivationPath => e.1 == k := by
      funext e
      by_cases h : e.1 = k <;> simp [Function.comp, h]
    rw [hpf]
    obtain ⟨e0, he0, hp0⟩ := List.any_eq_true.mp hany
    cases hfind : l.find? fun e => e.1 == k with
    | none =>
      exact absurd (List.find?_eq_none.mp hfind e0 he0) (by simp [hp0])
    | some e1 =>
      have hp1 := List.find?_some hfind
      have h1 : e1.1 = k := by simpa using hp1
      simp [h1]
  · rw [if_neg hany]
    have hnone : (l.find? fun e => e.1 == k) = none := by
      rw [List.find?_eq_none]
      intro e he hp
      exact hany (List.any_eq_true.mpr ⟨e, he, hp⟩)
    rw [List.find?_append, hnone]
    simp

lemma lookup_insert_other (l : HDKeyPaths) {k k' : PubKey}
    (v' : Fingerprint × DerivationPath) (hne : k' ≠ k) :
    lookup_entry (insert_entry l k' v') k = lookup_entry l k := by
  unfold insert_entry lookup_entry
  by_cases hany : (l.any fun e => e.1 == k') = true
  · rw [if_pos hany, List.find?_map]
    have hpf : ((fun e : PubKey × Fingerprint × DerivationPath => e.1 == k)
          ∘ fun e => if e.1 == k' then (k', v') else e)
        = fun e : PubKey × Fingerprint × DerivationPath => e.1 == k := by
      funext e
      by_cases h : e.1 = k'
      · simp [Function.comp, h, hne]
      · simp [Function.comp, h]
    rw [hpf]
    cases hfind : l.find? fun e => e.1 == k with
    | none => rfl
    | some e1 =>
      have hp1 := List.find?_some hfind
      have h1 : e1.1 = k := by simpa using hp1
      have h2 : ¬ e1.1 = k' := fun hEq => hne (hEq ▸ h1)
      have h3 : ¬ k = k' := fun hEq => hne hEq.symm
      simp [h1, h2, h3]
  · rw [if_neg hany, List.find?_append]
    have : (([(k', v')] : HDKeyPaths).find? fun e => e.1 == k) = none := by
      simp
      exact hne
    rw [this]
    cases l.find? fun e => e.1 == k <;> rfl

lemma lookup_fold_absent :
    ∀ (es : HDKeyPaths) (acc : HDKeyPaths) (k : PubKey),
      (∀ e ∈ es, e.1 ≠ k) →
      lookup_entry (List.foldl (fun acc e => insert_entry acc e.1 e.2) acc es) k
        = lookup_entry acc k := by
  intro es
  induction es with
  | nil => intro acc k _; rfl
  | cons e0 rest ih =>
    intro acc k hab
    rw [List.foldl_cons,
      ih _ k fun e he => hab e (List.mem_cons_of_mem _ he),
      lookup_insert_other _ _ (hab e0 (List.mem_cons_self e0 rest))]

lemma lookup_fold_consistent :
    ∀ (es : HDKeyPaths) (acc : HDKeyPaths) (k : PubKey)
      (v : Fingerprint × DerivationPath),
      (∃ e ∈ es, e.1 = k ∧ e.2 = v) →
      (∀ e ∈ es, e.1 = k → e.2 = v) →
      lookup_entry (List.foldl (fun acc e => insert_entry acc e.1 e.2) acc es) k
        = some v := by
  intro es
  induction es with
  | nil =>
    rintro acc k v ⟨e, he, _⟩ _
    exact absurd he (List.not_mem_nil e)
  | cons e0 rest ih =>
    intro acc k v hex hall
    rw [List.foldl_cons]
    by_cases hrest : ∃ e ∈ rest, e.1 = k ∧ e.2 = v
    · exact ih _ k v hrest fun e he h1 => hall e (List.mem_cons_of_mem _ he) h1
    · obtain ⟨e, he, h1, h2⟩ := hex
      rcases List.mem_cons.mp he with rfl | hmem
      · have habs : ∀ e' ∈ rest, e'.1 ≠ k := fun e' he' h' =>
          hrest ⟨e', he', h', hall e' (List.mem_cons_of_mem _ he') h'⟩
        rw [lookup_fold_absent rest _ k habs, h1, h2, lookup_insert_self]
      · exact absurd ⟨e, hmem, h1, h2⟩ hrest

lemma full_path_derived (x : DescriptorXKey) (i : Nat) :
    (derived_xkey x i).full_path []
      = (x.origin_path ++ x.derivation_path) ++ pinned_tail x.wildcard i := by
  unfold derived_xkey DescriptorXKey.full_path DescriptorXKey.origin_path
  cases ho : x.origin with
  | none => simp
  | some fp => simp [List.append_assoc]

/-- C9: for the descriptor derived at index i, get_hd_keypaths maps each
extended key's derived concrete public key to that key's root fingerprint
and full derivation path (origin path ++ base path, with the pinned index
appended for wildcard keys); in particular the recorded path of every
wildcard key ends in a component whose index is i. The hypothesis hinj says
no two extended keys of the descriptor collide on the same derived public
key while recording different data (overwrites are last-write-wins). -/
theorem C9_roundtrip (d : Descriptor) (i : Nat)
    (hinj : ∀ x1 x2 : DescriptorXKey,
      DescriptorPublicKey.XPub x1 ∈ d.keys →
      DescriptorPublicKey.XPub x2 ∈ d.keys →
      (xkey_record (derived_xkey x1 i)).1 = (xkey_record (derived_xkey x2 i)).1 →
      (xkey_record (derived_xkey x1 i)).2 = (xkey_record (derived_xkey x2 i)).2) :
    ∀ x : DescriptorXKey, DescriptorPublicKey.XPub x ∈ d.keys →
      lookup_entry ((d.as_derived i).get_hd_keypaths)
          (x.xkey.derive_pub (x.derivation_path ++ pinned_tail x.wildcard i))
        = some (x.root_fingerprint,
            (x.origin_path ++ x.derivation_path) ++ pinned_tail x.wildcard i)
      ∧ (x.wildcard ≠ Wildcard.None →
          ∃ cn : ChildNumber,
            ((x.origin_path ++ x.derivation_path)
                ++ pinned_tail x.wildcard i).getLast? = some cn ∧
              cn.num = i) := by
  intro x hx
  constructor
  · have hmem : DescriptorPublicKey.XPub (derived_xkey x i)
        ∈ (d.as_derived i).keys := by
      show DescriptorPublicKey.XPub (derived_xkey x i)
          ∈ d.keys.map fun k => k.derive i
      exact List.mem_map.mpr ⟨DescriptorPublicKey.XPub x, hx, derive_xpub x i⟩
    have hent : xkey_record (derived_xkey x i) ∈ hd_entries (d.as_derived i).keys :=
      List.mem_filterMap.mpr ⟨DescriptorPublicKey.XPub (derived_xkey x i), hmem, rfl⟩
    have hcons : ∀ e ∈ hd_entries (d.as_derived i).keys,
        e.1 = (xkey_record (derived_xkey x i)).1 →
        e.2 = (xkey_record (derived_xkey x i)).2 := by
      intro e he h1
      obtain ⟨key0, hk0, hg⟩ := List.mem_filterMap.mp he
      obtain ⟨k1, hk1, hder⟩ := List.mem_map.mp hk0
      cases k1 with
      | Single p =>
        have hkey0 : key0 = DescriptorPublicKey.Single p := by
          rw [← hder]
          rfl
        rw [hkey0] at hg
        exact Option.noConfusion hg
      | XPub x2 =>
        have hkey0 : key0 = DescriptorPublicKey.XPub (derived_xkey x2 i) := by
          rw [← hder]
          exact derive_xpub x2 i
        rw [hkey0] at hg
        have he2 : e = xkey_record (derived_xkey x2 i) := (Option.some.inj hg).symm
        rw [he2] at h1 ⊢
        exact hinj x2 x hk1 hx h1
    have hval : (xkey_record (derived_xkey x i)).2
        = (x.root_fingerprint,
            (x.origin_path ++ x.derivation_path) ++ pinned_tail x.wildcard i) := by
      unfold xkey_record
      exact congrArg (Prod.mk x.root_fingerprint) (full_path_derived x i)
    have hlook := lookup_fold_consistent (hd_entries (d.as_derived i).keys) []
      (xkey_record (derived_xkey x i)).1 (xkey_record (derived_xkey x i)).2
      ⟨xkey_record (derived_xkey x i), hent, rfl, rfl⟩ hcons
    rw [← hval]
    rw [get_hd_keypaths_eq]
    exact hlook
  · intro hw
    cases hcase : x.wildcard with
    | None => exact absurd hcase hw
    | Unhardened =>
      exact ⟨ChildNumber.Normal i, List.getLast?_concat _, rfl⟩
    | Hardened =>
      exact ⟨ChildNumber.Hardened i, List.getLast?_concat _, rfl⟩

/-- A single-wildcard-key descriptor for the C9 witness. -/
def exDescC9 : Descriptor :=
  { keys := [DescriptorPublicKey.XPub exWildA], dtype := DescriptorType.Wpkh,
    script_pubkey_at := fun i => 10 + i, explicit_script_at := fun i => 20 + i }

/-- Witness for C9 at a concrete derived descriptor, index 1. -/
theorem C9_witness :
    lookup_entry ((exDescC9.as_derived 1).get_hd_keypaths)
        (exWildA.xkey.derive_pub
          (exWildA.derivation_path ++ pinned_tail exWildA.wildcard 1))
      = some (exWildA.root_fingerprint,
          (exWildA.origin_path ++ exWildA.derivation_path)
            ++ pinned_tail exWildA.wildcard 1)
    ∧ (exWildA.wildcard ≠ Wildcard.None →
        ∃ cn : ChildNumber,
          ((exWildA.origin_path ++ exWildA.derivation_path)
              ++ pinned_tail exWildA.wildcard 1).getLast? = some cn ∧
            cn.num = 1) :=
  C9_roundtrip exDescC9 1
    (by
      intro x1 x2 h1 h2 _
      obtain rfl : x1 = exWildA :=
        DescriptorPublicKey.XPub.inj (List.mem_singleton.mp h1)
      obtain rfl : x2 = exWildA :=
        DescriptorPublicKey.XPub.inj (List.mem_singleton.mp h2)
      rfl)
    exWildA (List.mem_cons_self ..)

end MBW
